import Mathlib

/-!
Shallow embedding of the SLA monitoring dashboard's data pipeline
(`src/js/app.js`, class `SLAMonitoringApp`): ingestion normalization,
date/number coercion, metric derivation (`processData`), filtering
(`applyFilters`), sorting (`sortTable`), aggregate statistics
(`updateStatistics`) and CSV export (`exportToCSV`).

Modelling conventions for JavaScript values:
* JS numbers are modelled as exact rationals; `NaN` is modelled as `none`
  in `Option Rat` / `Option Int`.  Floating-point rounding and the
  infinities are not modelled (no claim depends on them).
* JS `Date` objects are `JSDate`: either `invalid` (an Invalid Date,
  whose time value is NaN) or `valid ms` (milliseconds since the epoch).
  The host timezone is taken to be UTC, so `new Date(y, m, d)` is the UTC
  midnight of the (normalized) civil date.
* Absent (`undefined`) string-ish record fields are `none` in
  `Option String`.
-/

set_option allowUnsafeReducibility true
attribute [local semireducible] Rat.add Rat.mul Rat.div Rat.inv Rat.sub Rat.neg

namespace SLA

/-! ## JS primitive coercions -/

/-- JS `s.split(sep)` for a single-character separator: split at every
occurrence, keeping empty pieces (`"".split(sep)` is `[""]`). -/
def splitOnCharAux (sep : Char) : List Char → List Char → List String
  | [], acc => [String.mk acc.reverse]
  | c :: cs, acc =>
    if c = sep then String.mk acc.reverse :: splitOnCharAux sep cs []
    else splitOnCharAux sep cs (c :: acc)

def jsSplit (s : String) (sep : Char) : List String :=
  splitOnCharAux sep s.data []

/-- JS `s.toLowerCase()` (ASCII case mapping; no claim involves non-ASCII
case folding). -/
def lowerStr (s : String) : String :=
  String.mk (s.data.map Char.toLower)

/-- Whitespace skipped by `parseInt` / `parseFloat`. -/
def isJsWhitespace (c : Char) : Bool :=
  c = ' ' || c = '\t' || c = '\n' || c = '\r'

/-- Numeric value of a list of decimal digit characters. -/
def digitsToNat (ds : List Char) : Nat :=
  ds.foldl (fun a c => a * 10 + (c.toNat - 48)) 0

/-- Numeric value of a list of hexadecimal digit characters. -/
def hexDigitsToNat (ds : List Char) : Nat :=
  ds.foldl (fun a c =>
    a * 16 + (if c.isDigit then c.toNat - 48
              else if 'a' ≤ c ∧ c ≤ 'f' then c.toNat - 87
              else c.toNat - 55)) 0

def isHexDigitChar (c : Char) : Bool :=
  c.isDigit || ('a' ≤ c && c ≤ 'f') || ('A' ≤ c && c ≤ 'F')

/-- JS `parseInt(s)` (radix argument omitted, so radix 10, or 16 after a
`0x`/`0X` prefix): skip whitespace, optional sign, longest digit prefix;
`none` models `NaN`. -/
def parseIntJS (s : String) : Option Int :=
  let cs := s.data.dropWhile isJsWhitespace
  let (sign, cs) : Int × List Char :=
    match cs with
    | '-' :: rest => (-1, rest)
    | '+' :: rest => (1, rest)
    | _ => (1, cs)
  match cs with
  | '0' :: x :: rest =>
    if x = 'x' ∨ x = 'X' then
      let ds := rest.takeWhile isHexDigitChar
      if ds.isEmpty then none else some (sign * hexDigitsToNat ds)
    else
      -- decimal, starting with the leading 0
      some (sign * digitsToNat (('0' :: x :: rest).takeWhile Char.isDigit))
  | cs =>
    let ds := cs.takeWhile Char.isDigit
    if ds.isEmpty then none else some (sign * digitsToNat ds)

/-- Optional exponent part of a JS float literal: `e`/`E`, optional sign,
digits.  If no digits follow the marker the exponent is not consumed. -/
def parseExponent (cs : List Char) : Int :=
  match cs with
  | 'e' :: rest | 'E' :: rest =>
    let (esign, rest) : Int × List Char :=
      match rest with
      | '-' :: r => (-1, r)
      | '+' :: r => (1, r)
      | _ => (1, rest)
    let eds := rest.takeWhile Char.isDigit
    if eds.isEmpty then 0 else esign * digitsToNat eds
  | _ => 0

/-- JS `parseFloat(s)`: skip whitespace, optional sign, then the longest
decimal-literal prefix `digits [. digits] [exp]` or `. digits [exp]`;
`none` models `NaN`.  (`Infinity` is not modelled.) -/
def parseFloatJS (s : String) : Option Rat :=
  let cs := s.data.dropWhile isJsWhitespace
  let (sign, cs) : Rat × List Char :=
    match cs with
    | '-' :: rest => (-1, rest)
    | '+' :: rest => (1, rest)
    | _ => (1, cs)
  let intDs := cs.takeWhile Char.isDigit
  let rest := cs.dropWhile Char.isDigit
  let build (ip fp : List Char) (after : List Char) : Option Rat :=
    let e := parseExponent after
    let base : Rat := (digitsToNat (ip ++ fp) : Rat) / ((10 : Rat) ^ fp.length)
    let scaled : Rat :=
      if 0 ≤ e then base * (10 : Rat) ^ e.toNat else base / (10 : Rat) ^ (-e).toNat
    some (sign * scaled)
  match intDs, rest with
  | [], '.' :: r =>
    let fds := r.takeWhile Char.isDigit
    if fds.isEmpty then none else build [] fds (r.dropWhile Char.isDigit)
  | [], _ => none
  | ds, '.' :: r =>
    let fds := r.takeWhile Char.isDigit
    build ds fds (r.dropWhile Char.isDigit)
  | ds, r => build ds [] r

/-- `parseFloat(v)` on a possibly-absent field (`parseFloat(undefined)` is
`NaN`). -/
def parseFloatField (v : Option String) : Option Rat :=
  v.bind parseFloatJS

/-- `v || 0` on a JS number: `NaN` (and `0` itself) give `0`. -/
def jsOrZero (v : Option Rat) : Rat :=
  match v with
  | none => 0
  | some q => q

/-- JS `x.toFixed(2)` followed by `parseFloat`: round half away from zero
at two decimals. -/
def roundTo2 (q : Rat) : Rat :=
  (if q < 0 then -(((-q) * 100 + 1/2).floor) else ((q * 100 + 1/2).floor) : Int) / 100

/-! ## JS dates -/

/-- A JS `Date` object: invalid (time value NaN) or a millisecond
timestamp. -/
inductive JSDate where
  | invalid
  | valid (ms : Int)
deriving DecidableEq, Repr

/-- Day number of the first day of civil month `m` (1-based, in `[1,12]`)
of year `y`, relative to 1970-01-01 (proleptic Gregorian). -/
def daysFromCivilMonth (y m : Int) : Int :=
  let y' := if m ≤ 2 then y - 1 else y
  let era := y'.fdiv 400
  let yoe := y' - era * 400
  let mp := if 2 < m then m - 3 else m + 9
  let doy := (153 * mp + 2).fdiv 5
  let doe := yoe * 365 + yoe.fdiv 4 - yoe.fdiv 100 + doy
  era * 146097 + doe - 719468

/-- ECMAScript `MakeDay(year, month, date)` (month 0-based, both month and
day-of-month may overflow and are normalized by rolling over). -/
def makeDay (y m d : Int) : Int :=
  let ym := y + m.fdiv 12
  let mn := m.emod 12
  daysFromCivilMonth ym (mn + 1) + (d - 1)

/-- ECMAScript `TimeClip` bound: `8.64e15` milliseconds. -/
def timeClipBound : Int := 8640000000000000

/-- `new Date(year, month, day)` with numeric (non-NaN) arguments, host
timezone UTC: the `0..99 → 1900+` year rule, `MakeDay` normalization and
`TimeClip`. -/
def dateFromYMD (y m d : Int) : JSDate :=
  let yr := if 0 ≤ y ∧ y ≤ 99 then 1900 + y else y
  let ms := makeDay yr m d * 86400000
  if ms ≤ timeClipBound ∧ -timeClipBound ≤ ms then .valid ms else .invalid

/-- JS `<` on two `Date` objects (via their time values; any comparison
against an Invalid Date's NaN is false). -/
def jsDateLt : JSDate → JSDate → Bool
  | .valid a, .valid b => a < b
  | _, _ => false

/-- `Math.ceil (n / d)` for an exact integer ratio, `0 < d`. -/
def jsCeilDiv (n d : Int) : Int := -((-n).fdiv d)

/-! ## parseDate

`parseDate(dateString)` from `app.js`: falsy input gives `null`; a
three-part `/`-split parses day/month/year through `new Date(y, m-1, d)`
(with no validity check on the parts, so NaN parts produce an Invalid
Date that is returned as-is); otherwise generic `new Date(string)`
parsing, with invalid results mapped to `null`.

The generic branch (`new Date(dateString)`) is implementation-defined
beyond the ISO date-time format, so it is a parameter `generic`; the
claims hold for every choice of it. -/

def parseDateWith (generic : String → JSDate) (dateString : Option String) :
    Option JSDate :=
  match dateString with
  | none => none
  | some s =>
    if s = "" then none
    else
      match jsSplit s '/' with
      | [p1, p2, p3] =>
        match parseIntJS p1, parseIntJS p2, parseIntJS p3 with
        | some d, some m, some y => some (dateFromYMD y (m - 1) d)
        | _, _, _ => some .invalid
      | _ =>
        match generic s with
        | .invalid => none
        | .valid ms => some (.valid ms)

/-- Modelled from the spec: the generic `new Date(string)` fallback parser
(the source delegates to the host's implementation-defined date parsing).
Only the ISO `YYYY-MM-DD` shape is given a value; everything else is an
Invalid Date. -/
def genericDateParse (s : String) : JSDate :=
  match jsSplit s '-' with
  | [ys, ms, ds] =>
    match parseIntJS ys, parseIntJS ms, parseIntJS ds with
    | some y, some m, some d =>
      if 1 ≤ m ∧ m ≤ 12 ∧ 1 ≤ d ∧ d ≤ 31 ∧ ys.length = 4 then
        let v := daysFromCivilMonth y m + (d - 1)
        let msv := v * 86400000
        if msv ≤ timeClipBound ∧ -timeClipBound ≤ msv then .valid msv else .invalid
      else .invalid
    | _, _, _ => .invalid
  | _ => .invalid

def parseDate (dateString : Option String) : Option JSDate :=
  parseDateWith genericDateParse dateString

/-! ## Records and `processData` -/

/-- A raw record as ingested.  The five identifier fields are taken to be
present as text (the filter dereferences them unconditionally); the date
and numeric fields are kept in their raw textual form, `none` for an
absent field. -/
structure Record where
  nomorPO : String
  itemCode : String
  itemName : String
  supplierName : String
  contract : String
  poDate : Option String
  receivedDate : Option String
  qtyPO : Option String
  qtyReceived : Option String
  poValue : Option String
  receivedValue : Option String
deriving DecidableEq, Repr

/-- A record after `processData`: the raw fields plus `sla`, `avgDays`
(`none` models NaN) and the two parsed date objects (`none` models
`null`). -/
structure EnrichedRecord extends Record where
  sla : Rat
  avgDays : Option Int
  poDateObj : Option JSDate
  receivedDateObj : Option JSDate
deriving DecidableEq, Repr

/-- The per-item body of `processData`'s `map`: coerce the values with
`parseFloat(x) || 0`, derive `sla` (guarded by `poValue > 0`, then
`parseFloat(sla.toFixed(2))`), parse both dates, and derive `avgDays`
with `poDate && receivedDate ? Math.ceil((receivedDate - poDate)/86400000) : 0`
(an Invalid Date is truthy and subtracts as NaN). -/
def enrich (item : Record) : EnrichedRecord :=
  let poValue := jsOrZero (parseFloatField item.poValue)
  let receivedValue := jsOrZero (parseFloatField item.receivedValue)
  let sla : Rat := if 0 < poValue then receivedValue / poValue * 100 else 0
  let poDateObj := parseDate item.poDate
  let receivedDateObj := parseDate item.receivedDate
  let avgDays : Option Int :=
    match poDateObj, receivedDateObj with
    | some po, some rcv =>
      match po, rcv with
      | .valid a, .valid b => some (jsCeilDiv (b - a) 86400000)
      | _, _ => none
    | _, _ => some 0
  { item with
    sla := roundTo2 sla
    avgDays := avgDays
    poDateObj := poDateObj
    receivedDateObj := receivedDateObj }

def processData (data : List Record) : List EnrichedRecord :=
  data.map enrich

/-! ## `applyFilters` -/

/-- Filter inputs.  A date bound is the content of its text input: `none`
for the empty string (falsy, bound inactive), otherwise the result of
`new Date(value)` on the nonempty text (possibly an Invalid Date).  The
three needles are the raw search strings, lowercased by the source before
matching; the empty needle is inactive. -/
structure FilterSpec where
  poDateFrom : Option JSDate
  poDateTo : Option JSDate
  rcvDateFrom : Option JSDate
  rcvDateTo : Option JSDate
  supplierSearch : String
  contractSearch : String
  itemCodeSearch : String
deriving DecidableEq, Repr

/-- The empty filter state (all inputs blank). -/
def FilterSpec.empty : FilterSpec :=
  ⟨none, none, none, none, "", "", ""⟩

/-- `bound && dateObj && dateObj < bound` — the lower-bound rejection test
of `applyFilters`. -/
def dateRejectBelow (bound dateObj : Option JSDate) : Bool :=
  match bound, dateObj with
  | some b, some d => jsDateLt d b
  | _, _ => false

/-- `bound && dateObj && dateObj > bound` — the upper-bound rejection test
(JS `>` on dates is the flipped `<` on their time values). -/
def dateRejectAbove (bound dateObj : Option JSDate) : Bool :=
  match bound, dateObj with
  | some b, some d => jsDateLt b d
  | _, _ => false

/-- JS `haystack.includes(needle)`: some suffix of the haystack starts
with the needle. -/
def jsIncludes (haystack needle : String) : Bool :=
  (List.range (haystack.data.length + 1)).any fun i =>
    needle.data.isPrefixOf (haystack.data.drop i)

/-- `needle && !field.toLowerCase().includes(needle)` — the needle
rejection test (the needle itself was lowercased when read). -/
def needleReject (needle field : String) : Bool :=
  needle ≠ "" && !(jsIncludes (lowerStr field) needle)

/-- The filter predicate of `applyFilters`, mirroring its early-return
chain. -/
def recordPasses (spec : FilterSpec) (item : EnrichedRecord) : Bool :=
  if dateRejectBelow spec.poDateFrom item.poDateObj then false
  else if dateRejectAbove spec.poDateTo item.poDateObj then false
  else if dateRejectBelow spec.rcvDateFrom item.receivedDateObj then false
  else if dateRejectAbove spec.rcvDateTo item.receivedDateObj then false
  else if needleReject spec.supplierSearch item.supplierName then false
  else if needleReject spec.contractSearch item.contract then false
  else if needleReject spec.itemCodeSearch item.itemCode then false
  else true

def applyFilters (spec : FilterSpec) (data : List EnrichedRecord) :
    List EnrichedRecord :=
  data.filter (recordPasses spec)

/-- The PO-date axis of the filter: both PO-date bound checks pass. -/
def poAxisPass (spec : FilterSpec) (item : EnrichedRecord) : Bool :=
  !dateRejectBelow spec.poDateFrom item.poDateObj &&
  !dateRejectAbove spec.poDateTo item.poDateObj

/-- The received-date axis of the filter. -/
def rcvAxisPass (spec : FilterSpec) (item : EnrichedRecord) : Bool :=
  !dateRejectBelow spec.rcvDateFrom item.receivedDateObj &&
  !dateRejectAbove spec.rcvDateTo item.receivedDateObj

/-! ## `sortTable` -/

inductive SortDir where
  | asc
  | desc
deriving DecidableEq, Repr

def SortDir.toggle : SortDir → SortDir
  | .asc => .desc
  | .desc => .asc

/-- The sortable columns (`th.sortable`'s `data-column` values). -/
inductive Column where
  | nomorPO | itemCode | itemName | supplierName | contract
  | poDate | qtyPO | poValue | receivedDate | qtyReceived | receivedValue
  | sla | avgDays
deriving DecidableEq, Repr

/-- A comparison value inside the sort comparator, after the per-column
coercions. -/
inductive SortVal where
  | num (q : Rat)
  | str (s : String)
  | date (d : JSDate)
deriving DecidableEq, Repr

/-- The comparator's per-column key: numeric columns coerce with
`parseFloat(aVal) || 0` (on `sla`, a finite number, this is the identity;
on a NaN `avgDays` it gives 0), date columns substitute
`a[column + 'Obj'] || new Date(0)`, all other columns compare the raw
field text. -/
def sortVal (c : Column) (r : EnrichedRecord) : SortVal :=
  match c with
  | .nomorPO => .str r.nomorPO
  | .itemCode => .str r.itemCode
  | .itemName => .str r.itemName
  | .supplierName => .str r.supplierName
  | .contract => .str r.contract
  | .qtyPO => .num (jsOrZero (parseFloatField r.qtyPO))
  | .qtyReceived => .num (jsOrZero (parseFloatField r.qtyReceived))
  | .poValue => .num (jsOrZero (parseFloatField r.poValue))
  | .receivedValue => .num (jsOrZero (parseFloatField r.receivedValue))
  | .sla => .num r.sla
  | .avgDays => .num (jsOrZero (r.avgDays.map fun n => (n : Rat)))
  | .poDate => .date (r.poDateObj.getD (.valid 0))
  | .receivedDate => .date (r.receivedDateObj.getD (.valid 0))

/-- JS `<` on two comparison values.  For the value shapes a fixed column
produces the two sides always have the same shape; mixed shapes are
unreachable. -/
def sortValLt : SortVal → SortVal → Bool
  | .num a, .num b => a < b
  | .str a, .str b => a < b
  | .date a, .date b => jsDateLt a b
  | _, _ => false

/-- The three-way comparator passed to `Array.prototype.sort`: `aVal > bVal`
on these value shapes is the flipped `aVal < bVal`. -/
def comparator (c : Column) (dir : SortDir) (a b : EnrichedRecord) : Int :=
  let av := sortVal c a
  let bv := sortVal c b
  if sortValLt av bv then (match dir with | .asc => -1 | .desc => 1)
  else if sortValLt bv av then (match dir with | .asc => 1 | .desc => -1)
  else 0

/-- The sort-related state of the app instance. -/
structure AppState where
  filteredData : List EnrichedRecord
  sortColumn : Option Column
  sortDirection : SortDir
deriving Repr

/-- `sortTable(column)`: toggle or reset the direction, then sort
`filteredData` in place.  `Array.prototype.sort` with a comparator is
modelled as the stable `mergeSort` with `le a b ↔ comparator a b ≤ 0`. -/
def sortTable (c : Column) (st : AppState) : AppState :=
  let dir := if st.sortColumn = some c then st.sortDirection.toggle else .asc
  { filteredData := st.filteredData.mergeSort fun a b => comparator c dir a b ≤ 0
    sortColumn := some c
    sortDirection := dir }

/-! ## `updateStatistics` -/

/-- The four summary values (`avgDays` can be NaN, hence `Option`;
`avgSLA` never can, since every `sla` is a finite number). -/
structure Stats where
  totalPO : Nat
  totalItems : Nat
  avgSLA : Rat
  avgDays : Option Rat
deriving DecidableEq, Repr

/-- JS `+` with NaN propagation. -/
def jsAdd : Option Rat → Option Rat → Option Rat
  | some a, some b => some (a + b)
  | _, _ => none

/-- The statistics computed by `updateStatistics`: `new Set(...).size` is
the number of distinct values, and the two averages guard against an
empty list. -/
def summarize (l : List EnrichedRecord) : Stats :=
  { totalPO := (l.map (·.nomorPO)).dedup.length
    totalItems := l.length
    avgSLA :=
      if 0 < l.length then (l.foldl (fun s r => s + r.sla) 0) / (l.length : Rat)
      else 0
    avgDays :=
      if 0 < l.length then
        (l.foldl (fun s r => jsAdd s (r.avgDays.map fun n => (n : Rat))) (some 0)).map
          (fun x => x / (l.length : Rat))
      else some 0 }

/-! ## `exportToCSV` -/

/-- Template-literal stringification of a possibly-absent raw field. -/
def jsFieldText (v : Option String) : String :=
  v.getD "undefined"

/-- `item.avgDays` interpolated into the CSV row text. -/
def jsIntText (v : Option Int) : String :=
  match v with
  | none => "NaN"
  | some n => toString n

/-- `x.toFixed(2)` as a string, for a rational that JS holds as a finite
number. -/
def toFixed2 (q : Rat) : String :=
  let n : Int := if q < 0 then -(((-q) * 100 + 1/2).floor) else ((q * 100 + 1/2).floor)
  let a := n.natAbs
  (if n < 0 then "-" else "") ++ toString (a / 100) ++ "." ++
    (if a % 100 < 10 then "0" ++ toString (a % 100) else toString (a % 100))

/-- The 13 cell values of one exported row, in the source's order. -/
def exportCells (item : EnrichedRecord) : List String :=
  [item.nomorPO, item.itemCode, item.itemName, item.supplierName,
   item.contract, jsFieldText item.poDate, jsFieldText item.qtyPO,
   jsFieldText item.poValue, jsFieldText item.receivedDate,
   jsFieldText item.qtyReceived, jsFieldText item.receivedValue,
   toFixed2 item.sla, jsIntText item.avgDays]

def csvHeaders : List String :=
  ["Nomor PO", "Item Code", "Item Name", "Supplier Name",
   "Contract/Principal", "PO Date", "Qty PO", "PO Value", "Received Date",
   "Qty Received", "Received Value", "SLA (%)", "Avg Days"]

/-- `exportToCSV`'s generated text: the unquoted header line, then one
line per record with every cell wrapped in `"` (no escaping), joined by
newlines. -/
def exportToCSV (l : List EnrichedRecord) : String :=
  String.intercalate "\n"
    (String.intercalate "," csvHeaders ::
      l.map fun item =>
        String.intercalate "," ((exportCells item).map fun cell => "\"" ++ cell ++ "\""))

/-! ## Ingestion (`loadData`'s response handling) -/

/-- A JSON-decoded payload. -/
inductive Json where
  | null
  | bool (b : Bool)
  | num (q : Rat)
  | str (s : String)
  | arr (xs : List Json)
  | obj (fields : List (String × Json))

/-- JS truthiness of a decoded JSON value. -/
def jsonTruthy : Json → Bool
  | .null => false
  | .bool b => b
  | .num q => q ≠ 0
  | .str s => s ≠ ""
  | .arr _ => true
  | .obj _ => true

/-- Property lookup `v.data` on a non-null value (`none` = `undefined`). -/
def dataProp : Json → Option Json
  | .obj fields => fields.lookup "data"
  | _ => none

/-- `this.data = result.data || result || []`.  On `result = null` the
property access itself throws a `TypeError` (modelled as `none`); on
anything else the first truthy of `result.data`, `result`, `[]` is kept. -/
def ingest (result : Json) : Option Json :=
  match result with
  | .null => none
  | r =>
    some
      (match dataProp r with
       | some v =>
         if jsonTruthy v then v else if jsonTruthy r then r else .arr []
       | none => if jsonTruthy r then r else .arr [])

/-- Field lookup on a record-shaped object, as a string; non-string and
absent shapes read as absent (the claims only exercise record-shaped
payload elements through their shape, never through non-string field
values). -/
def jsonStrField (j : Json) (k : String) : Option String :=
  match j with
  | .obj fields =>
    match fields.lookup k with
    | some (.str s) => some s
    | _ => none
  | _ => none

def decodeItem (j : Json) : Record :=
  { nomorPO := (jsonStrField j "nomorPO").getD ""
    itemCode := (jsonStrField j "itemCode").getD ""
    itemName := (jsonStrField j "itemName").getD ""
    supplierName := (jsonStrField j "supplierName").getD ""
    contract := (jsonStrField j "contract").getD ""
    poDate := jsonStrField j "poDate"
    receivedDate := jsonStrField j "receivedDate"
    qtyPO := jsonStrField j "qtyPO"
    qtyReceived := jsonStrField j "qtyReceived"
    poValue := jsonStrField j "poValue"
    receivedValue := jsonStrField j "receivedValue" }

/-- `this.data.map(item => ...)` inside `processData`: throws (`none`)
unless `this.data` is an array. -/
def processDataJson (j : Json) : Option (List EnrichedRecord) :=
  match j with
  | .arr xs => some (xs.map fun x => enrich (decodeItem x))
  | _ => none

/-! ## Sort analysis helpers

The comparator is not transitive on the whole record type (an Invalid
Date compares equal to everything), so sortedness of `mergeSort`'s output
is obtained by transferring to a clean, totally ordered key (`CK`) that
agrees with the comparator on the records actually present in the list
being sorted. -/

/-- A clean sort key: the comparator's comparison value with the date
collapsed to its millisecond timestamp (an Invalid Date, excluded by the
hypotheses under which the key is used, is mapped to 0). -/
inductive CK where
  | num (q : Rat)
  | str (s : String)
  | date (ms : Int)
deriving DecidableEq, Repr

def ckOf : SortVal → CK
  | .num q => .num q
  | .str s => .str s
  | .date (.valid ms) => .date ms
  | .date .invalid => .date 0

def ck (c : Column) (r : EnrichedRecord) : CK :=
  ckOf (sortVal c r)

/-- A total order on clean keys (keys of different kinds, which a fixed
column never produces, are ordered by kind). -/
def ckLe : CK → CK → Bool
  | .num a, .num b => a ≤ b
  | .num _, _ => true
  | .str _, .num _ => false
  | .str a, .str b => a ≤ b
  | .str _, .date _ => true
  | .date a, .date b => a ≤ b
  | .date _, _ => false

/-- The clean-key comparison matching a sort direction. -/
def ckDirLe (dir : SortDir) (x y : CK) : Bool :=
  match dir with
  | .asc => ckLe x y
  | .desc => ckLe y x

/-- The date-column sort key of a record under a date accessor: the
parsed timestamp, with `null` substituted by the epoch. -/
def dateKey (g : EnrichedRecord → Option JSDate) (r : EnrichedRecord) : Int :=
  match g r with
  | some (.valid ms) => ms
  | _ => 0

/-- The per-direction ordering on date keys asserted of a sorted view. -/
def dirRel (dir : SortDir) (x y : Int) : Prop :=
  match dir with
  | .asc => x ≤ y
  | .desc => y ≤ x

/-- One exported data row, as `exportToCSV` builds it. -/
def csvRow (item : EnrichedRecord) : String :=
  String.intercalate "," ((exportCells item).map fun cell => "\"" ++ cell ++ "\"")

/-! ## Concrete inputs for counterexamples and witnesses -/

def blankRecord : Record :=
  ⟨"", "", "", "", "", none, none, none, none, none, none⟩

/-- A record whose dates both parse to valid calendar values (the spec's
end-to-end example). -/
def recNormal : Record :=
  { blankRecord with
    nomorPO := "PO1", itemCode := "X1", supplierName := "Acme", contract := "C1"
    poDate := some "01/01/2024", receivedDate := some "05/01/2024"
    poValue := some "100", receivedValue := some "80" }

/-- A record whose PO date parses to an Invalid Date (non-numeric parts
in the three-part slash branch) while the received date is valid. -/
def recInvalidPoDate : Record :=
  { blankRecord with poDate := some "a/b/c", receivedDate := some "05/01/2024" }

/-- An enriched record with an unparsed (null) PO date. -/
def erUnparsed : EnrichedRecord :=
  ⟨{ blankRecord with nomorPO := "A" }, 0, some 0, none, none⟩

/-- An enriched record whose PO date parses to 1960-01-01, before the
epoch. -/
def erOld : EnrichedRecord :=
  ⟨{ blankRecord with nomorPO := "B" }, 0, some 0,
    some (.valid (-315619200000)), none⟩

/-- A state about to be sorted by PO date for the first time. -/
def c4State : AppState :=
  ⟨[erOld, erUnparsed], none, .asc⟩

def erSlaLow : EnrichedRecord :=
  ⟨{ blankRecord with nomorPO := "L" }, 10, some 1, none, none⟩

def erSlaHigh : EnrichedRecord :=
  ⟨{ blankRecord with nomorPO := "H" }, 20, some 2, none, none⟩

/-- A state already sorted ascending by `sla`, with no ties. -/
def c8State : AppState :=
  ⟨[erSlaLow, erSlaHigh], some .sla, .asc⟩

/-- A filter specification with every bound active. -/
def boundedSpec : FilterSpec :=
  ⟨some (.valid 0), some (.valid 86400000), some (.valid 0), some (.valid 86400000),
    "", "", ""⟩

/-- A filter specification whose four bounds all equal the epoch. -/
def eqBoundSpec : FilterSpec :=
  ⟨some (.valid 0), some (.valid 0), some (.valid 0), some (.valid 0), "", "", ""⟩

/-- An enriched record whose two dates parse exactly to the epoch. -/
def erEpoch : EnrichedRecord :=
  ⟨blankRecord, 0, some 0, some (.valid 0), some (.valid 0)⟩

end SLA

namespace SLA

/-! # Shared lemmas about the filter -/

theorem dateRejectBelow_eq_true {bound obj : Option JSDate}
    (h : dateRejectBelow bound obj = true) :
    ∃ d b, obj = some (JSDate.valid d) ∧ bound = some (JSDate.valid b) ∧ d < b := by
  cases bound with
  | none => simp [dateRejectBelow] at h
  | some b =>
    cases obj with
    | none => simp [dateRejectBelow] at h
    | some d =>
      cases b <;> cases d <;> simp_all [dateRejectBelow, jsDateLt]

theorem dateRejectAbove_eq_true {bound obj : Option JSDate}
    (h : dateRejectAbove bound obj = true) :
    ∃ d b, obj = some (JSDate.valid d) ∧ bound = some (JSDate.valid b) ∧ b < d := by
  cases bound with
  | none => simp [dateRejectAbove] at h
  | some b =>
    cases obj with
    | none => simp [dateRejectAbove] at h
    | some d =>
      cases b <;> cases d <;> simp_all [dateRejectAbove, jsDateLt]

/-- C5: a record whose date value is null is never excluded by the date
bounds of that axis: the axis check passes for every bound pair, a false
axis check can only arise from a valid parsed date lying strictly outside
a valid bound, and the whole filter predicate is the conjunction of the
two axis checks and the three needle checks. -/
theorem c5_vacuous_date_pass (spec : FilterSpec) (item : EnrichedRecord) :
    (item.poDateObj = none → poAxisPass spec item = true) ∧
    (item.receivedDateObj = none → rcvAxisPass spec item = true) ∧
    (poAxisPass spec item = false →
      ∃ d b, item.poDateObj = some (JSDate.valid d) ∧
        ((spec.poDateFrom = some (JSDate.valid b) ∧ d < b) ∨
         (spec.poDateTo = some (JSDate.valid b) ∧ b < d))) ∧
    (rcvAxisPass spec item = false →
      ∃ d b, item.receivedDateObj = some (JSDate.valid d) ∧
        ((spec.rcvDateFrom = some (JSDate.valid b) ∧ d < b) ∨
         (spec.rcvDateTo = some (JSDate.valid b) ∧ b < d))) ∧
    (recordPasses spec item =
      (poAxisPass spec item && rcvAxisPass spec item &&
       !needleReject spec.supplierSearch item.supplierName &&
       !needleReject spec.contractSearch item.contract &&
       !needleReject spec.itemCodeSearch item.itemCode)) := by
  refine ⟨?_, ?_, ?_, ?_, ?_⟩
  · intro h
    cases hf : spec.poDateFrom <;> cases ht : spec.poDateTo <;>
      simp [poAxisPass, dateRejectBelow, dateRejectAbove, h]
  · intro h
    cases hf : spec.rcvDateFrom <;> cases ht : spec.rcvDateTo <;>
      simp [rcvAxisPass, dateRejectBelow, dateRejectAbove, h]
  · intro h
    by_cases h1 : dateRejectBelow spec.poDateFrom item.poDateObj = true
    · rcases dateRejectBelow_eq_true h1 with ⟨d, b, hd, hb, hlt⟩
      exact ⟨d, b, hd, Or.inl ⟨hb, hlt⟩⟩
    · by_cases h2 : dateRejectAbove spec.poDateTo item.poDateObj = true
      · rcases dateRejectAbove_eq_true h2 with ⟨d, b, hd, hb, hlt⟩
        exact ⟨d, b, hd, Or.inr ⟨hb, hlt⟩⟩
      · rw [Bool.not_eq_true] at h1 h2
        rw [poAxisPass, h1, h2] at h
        simp at h
  · intro h
    by_cases h1 : dateRejectBelow spec.rcvDateFrom item.receivedDateObj = true
    · rcases dateRejectBelow_eq_true h1 with ⟨d, b, hd, hb, hlt⟩
      exact ⟨d, b, hd, Or.inl ⟨hb, hlt⟩⟩
    · by_cases h2 : dateRejectAbove spec.rcvDateTo item.receivedDateObj = true
      · rcases dateRejectAbove_eq_true h2 with ⟨d, b, hd, hb, hlt⟩
        exact ⟨d, b, hd, Or.inr ⟨hb, hlt⟩⟩
      · rw [Bool.not_eq_true] at h1 h2
        rw [rcvAxisPass, h1, h2] at h
        simp at h
  · by_cases h1 : dateRejectBelow spec.poDateFrom item.poDateObj <;>
    by_cases h2 : dateRejectAbove spec.poDateTo item.poDateObj <;>
    by_cases h3 : dateRejectBelow spec.rcvDateFrom item.receivedDateObj <;>
    by_cases h4 : dateRejectAbove spec.rcvDateTo item.receivedDateObj <;>
    by_cases h5 : needleReject spec.supplierSearch item.supplierName <;>
    by_cases h6 : needleReject spec.contractSearch item.contract <;>
    by_cases h7 : needleReject spec.itemCodeSearch item.itemCode <;>
    simp [recordPasses, poAxisPass, rcvAxisPass, h1, h2, h3, h4, h5, h6, h7]

theorem c5_witness : poAxisPass boundedSpec erUnparsed = true :=
  (c5_vacuous_date_pass boundedSpec erUnparsed).1 rfl

/-- C10: the date-bound rejections compare strictly, so a record whose
parsed date equals the bound value is retained: the bound tests reduce to
strict comparisons, and when every active bound of an axis equals the
record's parsed date the axis check passes. -/
theorem c10_inclusive_bounds (spec : FilterSpec) (item : EnrichedRecord) (ms : Int) :
    (∀ b d : Int,
      dateRejectBelow (some (JSDate.valid b)) (some (JSDate.valid d)) = decide (d < b) ∧
      dateRejectAbove (some (JSDate.valid b)) (some (JSDate.valid d)) = decide (b < d)) ∧
    (item.poDateObj = some (JSDate.valid ms) →
      (spec.poDateFrom = some (JSDate.valid ms) ∨ spec.poDateFrom = none) →
      (spec.poDateTo = some (JSDate.valid ms) ∨ spec.poDateTo = none) →
      poAxisPass spec item = true) ∧
    (item.receivedDateObj = some (JSDate.valid ms) →
      (spec.rcvDateFrom = some (JSDate.valid ms) ∨ spec.rcvDateFrom = none) →
      (spec.rcvDateTo = some (JSDate.valid ms) ∨ spec.rcvDateTo = none) →
      rcvAxisPass spec item = true) := by
  refine ⟨fun b d => ⟨rfl, rfl⟩, ?_, ?_⟩
  · intro h h1 h2
    rcases h1 with h1 | h1 <;> rcases h2 with h2 | h2 <;>
      simp [poAxisPass, dateRejectBelow, dateRejectAbove, h, h1, h2, jsDateLt]
  · intro h h1 h2
    rcases h1 with h1 | h1 <;> rcases h2 with h2 | h2 <;>
      simp [rcvAxisPass, dateRejectBelow, dateRejectAbove, h, h1, h2, jsDateLt]

theorem c10_witness : poAxisPass eqBoundSpec erEpoch = true :=
  (c10_inclusive_bounds eqBoundSpec erEpoch 0).2.1 rfl (Or.inl rfl) (Or.inl rfl)

end SLA

namespace SLA

/-- C6: the derived `sla` is the 2-decimal rounding of
`receivedValue / poValue * 100` when the coerced `poValue` is strictly
positive, and is 0 whenever the coerced `poValue` is not positive
(including a missing or non-numeric `poValue`, which coerces to 0). -/
theorem c6_sla_formula (item : Record) :
    (0 < jsOrZero (parseFloatField item.poValue) →
      (enrich item).sla =
        roundTo2 (jsOrZero (parseFloatField item.receivedValue) /
          jsOrZero (parseFloatField item.poValue) * 100)) ∧
    (jsOrZero (parseFloatField item.poValue) ≤ 0 → (enrich item).sla = 0) := by
  constructor
  · intro h
    simp [enrich, if_pos h]
  · intro h
    have hz : ¬ (0 < jsOrZero (parseFloatField item.poValue)) := not_lt.mpr h
    simp [enrich, if_neg hz]
    decide

theorem c6_witness :
    (enrich recNormal).sla =
      roundTo2 (jsOrZero (parseFloatField recNormal.receivedValue) /
        jsOrZero (parseFloatField recNormal.poValue) * 100) ∧
    (enrich blankRecord).sla = 0 :=
  ⟨(c6_sla_formula recNormal).1 (by decide), (c6_sla_formula blankRecord).2 (by decide)⟩

/-- C3 counterexample: a record whose PO date text is `"a/b/c"` parses to
an Invalid Date (truthy, non-null), so the derived `avgDays` is NaN, not
the integer 0 the claim requires, and enrichment does produce a NaN
field. -/
theorem c3_counterexample :
    parseDate recInvalidPoDate.poDate = some JSDate.invalid ∧
    (enrich recInvalidPoDate).avgDays = none := by
  constructor <;> decide

/-- C3 (amended): `avgDays` is the ceiling of the millisecond difference
in days when both dates parse to valid calendar values, the integer 0
when either date fails to parse at all (null), and NaN when both parse
non-null but either is an Invalid Date. -/
theorem c3_avg_days (item : Record) :
    ((parseDate item.poDate = none ∨ parseDate item.receivedDate = none) →
      (enrich item).avgDays = some 0) ∧
    (∀ a b : Int, parseDate item.poDate = some (JSDate.valid a) →
      parseDate item.receivedDate = some (JSDate.valid b) →
      (enrich item).avgDays = some (jsCeilDiv (b - a) 86400000)) ∧
    ((parseDate item.poDate).isSome → (parseDate item.receivedDate).isSome →
      (parseDate item.poDate = some JSDate.invalid ∨
       parseDate item.receivedDate = some JSDate.invalid) →
      (enrich item).avgDays = none) := by
  refine ⟨?_, ?_, ?_⟩
  · rintro (h | h) <;>
      · cases h1 : parseDate item.poDate <;> cases h2 : parseDate item.receivedDate <;>
          simp_all [enrich]
  · intro a b h1 h2
    simp [enrich, h1, h2]
  · intro h1 h2 h3
    cases hp : parseDate item.poDate with
    | none => rw [hp] at h1; simp at h1
    | some dp =>
      cases hr : parseDate item.receivedDate with
      | none => rw [hr] at h2; simp at h2
      | some dr =>
        rw [hp, hr] at h3
        cases dp <;> cases dr <;> simp_all [enrich, hp, hr]

theorem c3_witness :
    (enrich recNormal).avgDays =
      some (jsCeilDiv (1704412800000 - 1704067200000) 86400000) :=
  (c3_avg_days recNormal).2.1 1704067200000 1704412800000 (by decide) (by decide)

/-- C2 counterexample: `"a/b/c"` splits into three parts, `parseInt`
yields NaN on each, and the resulting Invalid Date is returned as a
non-null calendar value instead of null. -/
theorem c2_counterexample : parseDate (some "a/b/c") = some JSDate.invalid := by
  decide

/-- C2 (amended): the parser is total and an invalid calendar value can
only be returned by the three-part slash branch; whenever the input does
not split into exactly three parts, an invalid result of the generic
parse is mapped to null. -/
theorem c2_invalid_only_from_slash_branch (generic : String → JSDate)
    (ds : Option String) :
    (parseDateWith generic ds = some JSDate.invalid →
      ∃ s, ds = some s ∧ (jsSplit s '/').length = 3) ∧
    (∀ s, ds = some s → (jsSplit s '/').length ≠ 3 → generic s = JSDate.invalid →
      parseDateWith generic ds = none) := by
  constructor
  · intro h
    cases ds with
    | none => simp [parseDateWith] at h
    | some s =>
      refine ⟨s, rfl, ?_⟩
      by_cases hs : s = ""
      · simp [parseDateWith, hs] at h
      · rw [parseDateWith] at h
        simp only [if_neg hs] at h
        rcases hsplit : jsSplit s '/' with _ | ⟨p1, _ | ⟨p2, _ | ⟨p3, _ | _⟩⟩⟩ <;>
          rw [hsplit] at h <;>
          first
          | rfl
          | (exfalso
             cases hg : generic s <;> simp [hg] at h)
  · intro s hds hlen hg
    subst hds
    by_cases hs : s = ""
    · simp [parseDateWith, hs]
    · rw [parseDateWith]
      simp only [if_neg hs]
      rcases hsplit : jsSplit s '/' with _ | ⟨p1, _ | ⟨p2, _ | ⟨p3, _ | _⟩⟩⟩ <;>
        simp_all [hg]

theorem c2_witness :
    (∃ s, (some "a/b/c" : Option String) = some s ∧ (jsSplit s '/').length = 3) ∧
    parseDateWith (fun _ => JSDate.invalid) (some "hello") = none :=
  ⟨(c2_invalid_only_from_slash_branch (fun _ => JSDate.invalid) (some "a/b/c")).1
      (by decide),
   (c2_invalid_only_from_slash_branch (fun _ => JSDate.invalid) (some "hello")).2
      "hello" rfl (by decide) rfl⟩

end SLA

namespace SLA

/-- C1 counterexample: the JSON payload `5` is neither a record array nor
an object with a `data` array, yet `result.data || result || []` keeps it
unchanged (it is truthy), and the mapping step of `processData` then
throws instead of completing on an empty record set. -/
theorem c1_counterexample :
    ingest (Json.num 5) = some (Json.num 5) ∧ processDataJson (Json.num 5) = none :=
  ⟨rfl, rfl⟩

/-- C1 (amended): only truthiness decides the degradation.  A null
payload throws a TypeError at the `result.data` access; a non-null falsy
payload (false, 0, the empty string) degrades to the empty array, on
which processing completes with the empty record set; any other payload
on which ingestion settles on a non-array value makes the mapping step of
`processData` throw (both throws are caught by `loadData` and surfaced as
a load failure). -/
theorem c1_ingestion_shape (j : Json) :
    (ingest Json.null = none) ∧
    (j ≠ Json.null → jsonTruthy j = false →
      ingest j = some (Json.arr []) ∧ processDataJson (Json.arr []) = some []) ∧
    (∀ v, ingest j = some v → (∀ xs, v ≠ Json.arr xs) → processDataJson v = none) := by
  refine ⟨rfl, ?_, ?_⟩
  · intro hne hfalsy
    cases j with
    | null => exact absurd rfl hne
    | bool b => cases b <;> simp_all [jsonTruthy, ingest, dataProp, processDataJson]
    | num q => simp_all [jsonTruthy, ingest, dataProp, processDataJson]
    | str s => simp_all [jsonTruthy, ingest, dataProp, processDataJson]
    | arr xs => simp_all [jsonTruthy]
    | obj fields => simp_all [jsonTruthy]
  · intro v _ hv
    cases v with
    | arr ys => exact absurd rfl (hv ys)
    | null => rfl
    | bool b => rfl
    | num q => rfl
    | str s => rfl
    | obj fields => rfl

theorem c1_witness :
    (ingest (Json.bool false) = some (Json.arr []) ∧
      processDataJson (Json.arr []) = some []) ∧
    processDataJson (Json.num 5) = none :=
  ⟨(c1_ingestion_shape (Json.bool false)).2.1 (fun h => Json.noConfusion h) rfl,
   (c1_ingestion_shape (Json.num 5)).2.2 (Json.num 5) rfl
     (fun _ h => Json.noConfusion h)⟩

/-- C9: the export text is the unquoted header line followed by exactly
one row per record in input order; each row is the comma-join of the 13
cells in the fixed column order, every cell wrapped in a quote character
with the raw cell text embedded verbatim (no escaping of embedded
quotes), the ratio formatted to two decimals and the dates exported as
their raw text. -/
theorem c9_export_shape (l : List EnrichedRecord) :
    exportToCSV l =
      String.intercalate "\n" (String.intercalate "," csvHeaders :: l.map csvRow) ∧
    (l.map csvRow).length = l.length ∧
    (∀ item, (exportCells item).length = 13) ∧
    (∀ item, (exportCells item).map (fun cell => "\"" ++ cell ++ "\"") =
      ["\"" ++ item.nomorPO ++ "\"", "\"" ++ item.itemCode ++ "\"",
       "\"" ++ item.itemName ++ "\"", "\"" ++ item.supplierName ++ "\"",
       "\"" ++ item.contract ++ "\"", "\"" ++ jsFieldText item.poDate ++ "\"",
       "\"" ++ jsFieldText item.qtyPO ++ "\"", "\"" ++ jsFieldText item.poValue ++ "\"",
       "\"" ++ jsFieldText item.receivedDate ++ "\"",
       "\"" ++ jsFieldText item.qtyReceived ++ "\"",
       "\"" ++ jsFieldText item.receivedValue ++ "\"",
       "\"" ++ toFixed2 item.sla ++ "\"", "\"" ++ jsIntText item.avgDays ++ "\""]) :=
  ⟨rfl, by simp, fun _ => rfl, fun _ => rfl⟩

end SLA

namespace SLA

/-! # Statistics lemmas -/

theorem foldl_add_sla (l : List EnrichedRecord) (x : Rat) :
    l.foldl (fun s r => s + r.sla) x = x + (l.map fun r => r.sla).sum := by
  induction l generalizing x with
  | nil => simp
  | cons r t ih => simp [ih, add_assoc]

theorem foldl_jsAdd_days (l : List EnrichedRecord) (x : Rat)
    (h : ∀ r ∈ l, r.avgDays ≠ none) :
    l.foldl (fun s r => jsAdd s (r.avgDays.map fun n => (n : Rat))) (some x) =
      some (x + (l.map fun r => ((r.avgDays.getD 0 : Int) : Rat)).sum) := by
  induction l generalizing x with
  | nil => simp
  | cons r t ih =>
    obtain ⟨n, hn⟩ := Option.ne_none_iff_exists'.mp (h r (List.mem_cons_self r t))
    have ht : ∀ q ∈ t, q.avgDays ≠ none := fun q hq => h q (List.mem_cons_of_mem r hq)
    rw [List.foldl_cons]
    have step : jsAdd (some x) (r.avgDays.map fun n => (n : Rat)) = some (x + (n : Rat)) := by
      rw [hn]; rfl
    rw [step, ih (x + (n : Rat)) ht]
    simp [hn, add_assoc]

/-- C7: `summarize` returns the number of distinct order numbers, the
record count, and the arithmetic means of `sla` and `avgDays`; on the
empty list it is exactly all zeros (no NaN, no error). -/
theorem c7_summary (l : List EnrichedRecord) :
    ((summarize l).totalPO = ((l.map fun r => r.nomorPO).toFinset).card) ∧
    ((summarize l).totalItems = l.length) ∧
    (summarize [] = ⟨0, 0, 0, some 0⟩) ∧
    (l ≠ [] → (summarize l).avgSLA = ((l.map fun r => r.sla).sum) / (l.length : Rat)) ∧
    (l ≠ [] → (∀ r ∈ l, r.avgDays ≠ none) →
      (summarize l).avgDays =
        some (((l.map fun r => ((r.avgDays.getD 0 : Int) : Rat)).sum) / (l.length : Rat))) := by
  refine ⟨?_, rfl, rfl, ?_, ?_⟩
  · simp [summarize, List.card_toFinset]
  · intro h
    have hl : 0 < l.length := List.length_pos.mpr h
    simp [summarize, hl, foldl_add_sla]
  · intro h hdays
    have hl : 0 < l.length := List.length_pos.mpr h
    simp only [summarize, if_pos hl]
    rw [foldl_jsAdd_days l 0 hdays]
    simp

theorem c7_witness :
    (summarize [enrich recNormal]).avgDays =
      some ((([enrich recNormal].map fun r => ((r.avgDays.getD 0 : Int) : Rat)).sum) /
        (([enrich recNormal] : List EnrichedRecord).length : Rat)) :=
  (c7_summary [enrich recNormal]).2.2.2.2 (by simp) (by decide)

end SLA

namespace SLA

/-! # Sort comparator lemmas

The comparator is analysed through the per-column comparison values.  It
is not transitive on the whole record type (Invalid Dates compare equal
to everything), so sortedness facts are transferred to the clean key
`ck`, which totally orders records, on lists where the two agree. -/

theorem sortValLt_irrefl (v : SortVal) : sortValLt v v = false := by
  cases v with
  | num q => simp [sortValLt]
  | str s => simp [sortValLt]
  | date d => cases d <;> simp [sortValLt, jsDateLt]

theorem sortValLt_asymm {v w : SortVal} (h : sortValLt v w = true) :
    sortValLt w v = false := by
  cases v with
  | num a =>
    cases w with
    | num b =>
      simp only [sortValLt, decide_eq_true_eq] at h
      simp [sortValLt, lt_asymm h]
    | str b => simp [sortValLt] at h
    | date b => simp [sortValLt] at h
  | str a =>
    cases w with
    | num b => simp [sortValLt] at h
    | str b =>
      simp only [sortValLt, decide_eq_true_eq] at h
      simp [sortValLt, lt_asymm h]
    | date b => simp [sortValLt] at h
  | date a =>
    cases w with
    | num b => simp [sortValLt] at h
    | str b => simp [sortValLt] at h
    | date b => cases a <;> cases b <;> (simp_all [sortValLt, jsDateLt]; try omega)

theorem comparator_self (c : Column) (dir : SortDir) (a : EnrichedRecord) :
    comparator c dir a a = 0 := by
  simp [comparator, sortValLt_irrefl]

theorem comparator_asc_comm (c : Column) (a b : EnrichedRecord) :
    comparator c .asc b a = -comparator c .asc a b := by
  by_cases h1 : sortValLt (sortVal c a) (sortVal c b) = true
  · simp [comparator, h1, sortValLt_asymm h1]
  · by_cases h2 : sortValLt (sortVal c b) (sortVal c a) = true
    · simp [comparator, h1, h2, sortValLt_asymm h2]
    · simp [comparator, h1, h2]

theorem comparator_ne_zero {c : Column} {dir : SortDir} {a b : EnrichedRecord}
    (h : comparator c dir a b ≠ 0) :
    sortValLt (sortVal c a) (sortVal c b) = true ∨
    sortValLt (sortVal c b) (sortVal c a) = true := by
  by_cases h1 : sortValLt (sortVal c a) (sortVal c b) = true
  · exact Or.inl h1
  · by_cases h2 : sortValLt (sortVal c b) (sortVal c a) = true
    · exact Or.inr h2
    · exact absurd (by simp [comparator, h1, h2]) h

theorem ckLe_refl (x : CK) : ckLe x x = true := by
  cases x <;> simp [ckLe]

theorem ckLe_total (x y : CK) : ckLe x y = true ∨ ckLe y x = true := by
  cases x <;> cases y <;> simp [ckLe] <;> exact le_total _ _

theorem ckLe_trans {x y z : CK} (h1 : ckLe x y = true) (h2 : ckLe y z = true) :
    ckLe x z = true := by
  cases x <;> cases y <;> cases z <;> simp_all [ckLe] <;>
    first
    | omega
    | exact le_trans h1 h2

theorem ckOf_lt {v w : SortVal} (h : sortValLt v w = true) :
    ckLe (ckOf v) (ckOf w) = true ∧ ckLe (ckOf w) (ckOf v) = false := by
  cases v with
  | num a =>
    cases w with
    | num b =>
      simp only [sortValLt, decide_eq_true_eq] at h
      simp [ckOf, ckLe, le_of_lt h, not_le.mpr h]
    | str b => simp [sortValLt] at h
    | date b => simp [sortValLt] at h
  | str a =>
    cases w with
    | num b => simp [sortValLt] at h
    | str b =>
      simp only [sortValLt, decide_eq_true_eq] at h
      simp [ckOf, ckLe, le_of_lt h, not_le.mpr h]
    | date b => simp [sortValLt] at h
  | date a =>
    cases w with
    | num b => simp [sortValLt] at h
    | str b => simp [sortValLt] at h
    | date b =>
      cases a <;> cases b <;> (simp_all [sortValLt, jsDateLt, ckOf, ckLe]; try omega)

theorem ckDirLe_trans (dir : SortDir) {x y z : CK}
    (h1 : ckDirLe dir x y = true) (h2 : ckDirLe dir y z = true) :
    ckDirLe dir x z = true := by
  cases dir <;> simp only [ckDirLe] at h1 h2 ⊢
  · exact ckLe_trans h1 h2
  · exact ckLe_trans h2 h1

theorem ckDirLe_total (dir : SortDir) (x y : CK) :
    (ckDirLe dir x y || ckDirLe dir y x) = true := by
  cases dir <;> simp only [ckDirLe, Bool.or_eq_true]
  · exact ckLe_total x y
  · exact ckLe_total y x

/-- Sortedness of `mergeSort` under the JS comparator, through any list
on which the comparator agrees with the clean-key order. -/
theorem mergeSort_ck_pairwise (c : Column) (dir : SortDir) (l : List EnrichedRecord)
    (hAgree : ∀ a ∈ l, ∀ b ∈ l,
      decide (comparator c dir a b ≤ 0) = ckDirLe dir (ck c a) (ck c b)) :
    (l.mergeSort fun a b => comparator c dir a b ≤ 0).Pairwise
      (fun a b => ckDirLe dir (ck c a) (ck c b) = true) := by
  have heq : (l.mergeSort fun a b => decide (comparator c dir a b ≤ 0)) =
      l.mergeSort fun a b => ckDirLe dir (ck c a) (ck c b) := by
    have hmap := List.map_mergeSort (f := fun r : EnrichedRecord => r)
      (r := fun a b => decide (comparator c dir a b ≤ 0))
      (s := fun a b => ckDirLe dir (ck c a) (ck c b)) (l := l) hAgree
    simpa using hmap
  rw [heq]
  refine List.sorted_mergeSort ?_ ?_ l
  · exact fun x y z hxy hyz => ckDirLe_trans dir hxy hyz
  · intro x y
    exact ckDirLe_total dir (ck c x) (ck c y)

end SLA

namespace SLA

/-- Sortedness by date key of a date-column sort, for views without
Invalid Dates. -/
theorem dateSort_pairwise (c : Column) (g : EnrichedRecord → Option JSDate)
    (hc : ∀ r, sortVal c r = .date ((g r).getD (.valid 0)))
    (dir : SortDir) (l : List EnrichedRecord)
    (h2 : ∀ r ∈ l, g r ≠ some JSDate.invalid) :
    (l.mergeSort fun a b => comparator c dir a b ≤ 0).Pairwise
      (fun a b => dirRel dir (dateKey g a) (dateKey g b)) := by
  have hval : ∀ r ∈ l, sortVal c r = .date (.valid (dateKey g r)) := by
    intro r hr
    rw [hc]
    cases hgr : g r with
    | none => simp [dateKey, hgr]
    | some d =>
      cases d with
      | invalid => exact absurd hgr (h2 r hr)
      | valid ms => simp [dateKey, hgr]
  have hAgree : ∀ a ∈ l, ∀ b ∈ l,
      decide (comparator c dir a b ≤ 0) = ckDirLe dir (ck c a) (ck c b) := by
    intro a ha b hb
    have hA := hval a ha
    have hB := hval b hb
    rcases lt_trichotomy (dateKey g a) (dateKey g b) with hlt | heq | hgt
    · have l1 : sortValLt (.date (.valid (dateKey g a)))
          (.date (.valid (dateKey g b))) = true := by
        simp [sortValLt, jsDateLt, hlt]
      have l2 := sortValLt_asymm l1
      cases dir <;>
        simp [comparator, hA, hB, l1, l2, ck, ckDirLe, ckOf, ckLe,
          le_of_lt hlt, not_le.mpr hlt]
    · have l1 : sortValLt (.date (.valid (dateKey g b)))
          (.date (.valid (dateKey g b))) = false := sortValLt_irrefl _
      cases dir <;>
        simp [comparator, hA, hB, heq, l1, ck, ckDirLe, ckOf, ckLe]
    · have l1 : sortValLt (.date (.valid (dateKey g b)))
          (.date (.valid (dateKey g a))) = true := by
        simp [sortValLt, jsDateLt, hgt]
      have l2 := sortValLt_asymm l1
      cases dir <;>
        simp [comparator, hA, hB, l1, l2, ck, ckDirLe, ckOf, ckLe,
          le_of_lt hgt, not_le.mpr hgt]
  have hpw := mergeSort_ck_pairwise c dir l hAgree
  refine List.Pairwise.imp_of_mem ?_ hpw
  intro a b ha hb hck
  have hA := hval a (List.mem_mergeSort.mp ha)
  have hB := hval b (List.mem_mergeSort.mp hb)
  simp only [ck, hA, hB, ckOf] at hck
  cases dir <;> simp_all [ckDirLe, ckLe, dirRel]

/-- C4 counterexample: sorting `[erOld, erUnparsed]` ascending by PO date
leaves the record with the 1960 (pre-epoch) date before the record with
the unparsed date, because the unparsed date is substituted by the epoch,
not by the earliest representable value; the claim instead requires every
unparsed-date record to come first. -/
theorem c4_counterexample :
    (sortTable .poDate c4State).filteredData = [erOld, erUnparsed] ∧
    erUnparsed.poDateObj = none ∧
    erOld.poDateObj = some (JSDate.valid (-315619200000)) ∧
    erOld ≠ erUnparsed := by
  refine ⟨?_, rfl, rfl, by decide⟩
  show List.mergeSort _ _ = _
  apply List.mergeSort_of_sorted
  constructor
  · intro b hb
    rw [List.mem_singleton] at hb
    subst hb
    decide
  · constructor
    · intro b hb
      simp at hb
    · exact List.Pairwise.nil

/-- C4 (amended): a record with an unparsed date gets the epoch (not the
earliest representable calendar value) as its comparison key, and for
views free of Invalid Dates the date-column sort orders the view by that
key in the active direction — so unparsed-date records come before
records with post-epoch dates and after records with pre-epoch dates in
ascending order, and symmetrically in descending order. -/
theorem c4_date_sort_epoch (st : AppState) :
    (∀ r : EnrichedRecord, r.poDateObj = none →
      sortVal .poDate r = SortVal.date (JSDate.valid 0)) ∧
    (∀ r : EnrichedRecord, r.receivedDateObj = none →
      sortVal .receivedDate r = SortVal.date (JSDate.valid 0)) ∧
    ((∀ r ∈ st.filteredData, r.poDateObj ≠ some JSDate.invalid) →
      ((sortTable .poDate st).filteredData).Pairwise
        (fun a b => dirRel (sortTable .poDate st).sortDirection
          (dateKey (fun r => r.poDateObj) a) (dateKey (fun r => r.poDateObj) b))) ∧
    ((∀ r ∈ st.filteredData, r.receivedDateObj ≠ some JSDate.invalid) →
      ((sortTable .receivedDate st).filteredData).Pairwise
        (fun a b => dirRel (sortTable .receivedDate st).sortDirection
          (dateKey (fun r => r.receivedDateObj) a)
          (dateKey (fun r => r.receivedDateObj) b))) := by
  refine ⟨?_, ?_, ?_, ?_⟩
  · intro r h; simp [sortVal, h]
  · intro r h; simp [sortVal, h]
  · intro h2
    exact dateSort_pairwise .poDate (fun r => r.poDateObj) (fun r => rfl) _
      st.filteredData h2
  · intro h2
    exact dateSort_pairwise .receivedDate (fun r => r.receivedDateObj) (fun r => rfl) _
      st.filteredData h2

theorem c4_witness :
    ((sortTable .poDate c4State).filteredData).Pairwise
      (fun a b => dirRel (sortTable .poDate c4State).sortDirection
        (dateKey (fun r => r.poDateObj) a) (dateKey (fun r => r.poDateObj) b)) :=
  (c4_date_sort_epoch c4State).2.2.1 (by decide)

end SLA

namespace SLA

/-- Re-sorting an ascending, tie-free view with the descending comparator
reverses it exactly. -/
theorem mergeSort_desc_reverse (c : Column) (l : List EnrichedRecord)
    (hSort : l.Pairwise fun a b => comparator c .asc a b ≤ 0)
    (hTies : l.Pairwise fun a b => comparator c .asc a b ≠ 0) :
    (l.mergeSort fun a b => comparator c .desc a b ≤ 0) = l.reverse := by
  have hStrict : l.Pairwise fun a b => comparator c .asc a b < 0 :=
    (hSort.and hTies).imp fun h => lt_of_le_of_ne h.1 h.2
  have hTieSymm : ∀ {x y : EnrichedRecord},
      comparator c .asc x y ≠ 0 → comparator c .asc y x ≠ 0 := by
    intro x y h
    rw [comparator_asc_comm]
    simpa using h
  have hTiesMem : ∀ a ∈ l, ∀ b ∈ l, a ≠ b → comparator c .asc a b ≠ 0 := by
    intro a ha b hb hne
    exact List.Pairwise.forall (fun x y h => hTieSymm h) hTies ha hb hne
  have hAgree : ∀ a ∈ l, ∀ b ∈ l,
      decide (comparator c .desc a b ≤ 0) = ckDirLe .desc (ck c a) (ck c b) := by
    intro a ha b hb
    by_cases hab : a = b
    · subst hab
      simp [comparator_self, ck, ckDirLe, ckLe_refl]
    · rcases comparator_ne_zero (hTiesMem a ha b hb hab) with h1 | h1
      · have hck := ckOf_lt h1
        have h2 := sortValLt_asymm h1
        simp [comparator, h1, h2, ckDirLe, ck, hck.2]
      · have hck := ckOf_lt h1
        have h2 := sortValLt_asymm h1
        simp [comparator, h1, h2, ckDirLe, ck, hck.1]
  have hout := mergeSort_ck_pairwise c .desc l hAgree
  have hperm := List.mergeSort_perm l fun a b => decide (comparator c .desc a b ≤ 0)
  have hTiesOut : ((l.mergeSort fun a b => comparator c .desc a b ≤ 0).Pairwise
      fun a b => comparator c .asc a b ≠ 0) :=
    (hperm.pairwise_iff fun h => hTieSymm h).mpr hTies
  have hGtOut : ((l.mergeSort fun a b => comparator c .desc a b ≤ 0).Pairwise
      fun a b => 0 < comparator c .asc a b) := by
    refine (hout.and hTiesOut).imp ?_
    rintro a b ⟨hck, hne⟩
    rcases comparator_ne_zero hne with h1 | h1
    · exfalso
      have hfalse := (ckOf_lt h1).2
      simp only [ckDirLe, ck] at hck
      rw [hck] at hfalse
      exact Bool.true_eq_false ▸ hfalse ▸ rfl
    · have h2 := sortValLt_asymm h1
      simp [comparator, h1, h2]
  have hGtRev : (l.reverse.Pairwise fun a b => 0 < comparator c .asc a b) := by
    rw [List.pairwise_reverse]
    refine hStrict.imp ?_
    intro a b h
    rw [comparator_asc_comm]
    omega
  have hperm2 : (l.mergeSort fun a b => comparator c .desc a b ≤ 0).Perm l.reverse :=
    hperm.trans l.reverse_perm.symm
  haveI : IsAntisymm EnrichedRecord (fun a b => 0 < comparator c .asc a b) := ⟨by
    intro a b h1 h2
    rw [comparator_asc_comm] at h2
    exact absurd h1 (by omega)⟩
  exact List.eq_of_perm_of_sorted hperm2 hGtOut hGtRev

/-- C8: invoking sort on the current sort column toggles the direction
(and keeps the column), invoking it on a different column resets the
direction to ascending; and when the view is sorted ascending by the
current column with no comparator ties, the re-sort produces the exact
reverse of the previous order. -/
theorem c8_toggle_and_reverse (st : AppState) (c : Column) :
    (st.sortColumn = some c →
      (sortTable c st).sortDirection = st.sortDirection.toggle) ∧
    (st.sortColumn ≠ some c → (sortTable c st).sortDirection = SortDir.asc) ∧
    ((sortTable c st).sortColumn = some c) ∧
    (st.sortColumn = some c → st.sortDirection = SortDir.asc →
      (st.filteredData.Pairwise fun a b => comparator c .asc a b ≤ 0) →
      (st.filteredData.Pairwise fun a b => comparator c .asc a b ≠ 0) →
      (sortTable c st).filteredData = st.filteredData.reverse) := by
  refine ⟨?_, ?_, rfl, ?_⟩
  · intro h; simp [sortTable, h]
  · intro h; simp [sortTable, h]
  · intro h hdir hSort hTies
    have hfd : (sortTable c st).filteredData =
        st.filteredData.mergeSort fun a b => comparator c .desc a b ≤ 0 := by
      simp [sortTable, h, hdir, SortDir.toggle]
    rw [hfd]
    exact mergeSort_desc_reverse c st.filteredData hSort hTies

theorem c8_witness :
    (sortTable .sla c8State).filteredData = c8State.filteredData.reverse :=
  (c8_toggle_and_reverse c8State .sla).2.2.2 rfl rfl
    (by constructor
        · intro b hb
          rw [List.mem_singleton] at hb
          subst hb
          decide
        · exact List.pairwise_singleton _ _)
    (by constructor
        · intro b hb
          rw [List.mem_singleton] at hb
          subst hb
          decide
        · exact List.pairwise_singleton _ _)

end SLA
